import Mathlib

set_option maxHeartbeats 1600000
set_option maxRecDepth 2000

namespace Tikv

/-- Encoded keys and byte buffers are modelled as lists of naturals. -/
abbrev Bytes := List Nat

/-- A row produced by an executor: the values of its columns.  The binary
encoding of a single column value is abstracted to the value itself. -/
abbrev Row := List Int

/-- A response chunk: the ordered sequence of encoded rows appended to its
`rows_data` buffer.  The source keeps a flat byte buffer; the model keeps row
granularity so that the number of appended rows stays visible (the flat buffer
is the concatenation). -/
abbrev Chunk := List (List Int)

/-- Modelled from the spec: the query-engine error module
(`components/tidb_query/src/error.rs`) is not part of the excerpt.  `storage`
and `evaluate` mirror the two `ErrorInner` variants that `handle_qe_response`
matches on; `deadlineExceeded` is the distinguished deadline error which the
spec describes as distinct from evaluation and storage errors.  Error codes
and messages are abstracted to naturals. -/
inductive QErr
  | storage (code : Nat)
  | evaluate (code : Nat) (msg : Nat)
  | deadlineExceeded
  deriving DecidableEq

/-- Executor descriptor types of the plan (`tipb::ExecType`). -/
inductive ExecType
  | typeTableScan
  | typeIndexScan
  | typeSelection
  | typeAggregation
  | typeStreamAgg
  | typeTopN
  | typeLimit
  deriving DecidableEq

/- ----------------------------------------------------------------------
   Expression function registry (rpn_expr/mod.rs)
   ---------------------------------------------------------------------- -/

/-- The comparison operators that parameterize the comparer routines
(`CmpOpLT`, `CmpOpLE`, ...). -/
inductive CmpOp
  | lt | le | gt | ge | ne | eq | nullEq
  deriving DecidableEq

/-- The non-integer evaluation type families used by the registry. -/
inductive EvalType
  | int | real | decimal | bytes | dateTime | duration | json
  deriving DecidableEq

/-- The monomorphized arithmetic routines named by `impl_arithmetic`. -/
inductive ArithVariant
  | intIntPlus | intUintPlus | uintIntPlus | uintUintPlus
  | intIntMinus | intUintMinus | uintIntMinus | uintUintMinus
  | intIntMultiply | intUintMultiply | uintIntMultiply | uintUintMultiply
  | intIntMod | intUintMod | uintIntMod | uintUintMod
  | intDivideInt | intDivideUint | uintDivideInt | uintDivideUint
  | realPlus | decimalPlus | realMinus | decimalMinus
  | decimalMultiply | realMultiply | realMod | decimalMod
  deriving DecidableEq

/-- The context-taking arithmetic routines. -/
inductive CtxArithVariant
  | decimalDivide | realDivide
  deriving DecidableEq

/-- A concrete evaluation routine chosen by the registry.  Each constructor
stands for one statically typed Rust function the source can return; two
different constructors (or the same constructor at different parameters) are
two different routines. -/
inductive RpnFnMeta
  | compareFn (ty : EvalType) (op : CmpOp)
  | compareIntUintFn (op : CmpOp)
  | compareUintIntFn (op : CmpOp)
  | compareUintUintFn (op : CmpOp)
  | arithmeticFn (v : ArithVariant)
  | arithmeticWithCtxFn (v : CtxArithVariant)
  | isNullFn (ty : EvalType)
  | intIsTrueFn | realIsTrueFn | decimalIsTrueFn
  | intIsFalseFn | realIsFalseFn | decimalIsFalseFn
  | logicalAndFn | logicalOrFn | unaryNotFn
  | likeFn
  | ifNullFn (ty : EvalType)
  | intDivideDecimalFn
  | caseWhenFn (ty : EvalType)
  | dateFormatFn
  | absIntFn | absUintFn | absRealFn | absDecimalFn
  | coalesceFn (ty : EvalType)
  | compareInFn (ty : EvalType)
  | ifConditionFn (ty : EvalType)
  | jsonTypeFn
  deriving DecidableEq

/-- The scalar function signatures that `map_pb_sig_to_rpn_func` matches on.
`otherSig` stands for every remaining variant of the wire enum, all of which
fall into the catch-all unsupported arm. -/
inductive ScalarFuncSig
  | LTInt | LTReal | LTDecimal | LTString | LTTime | LTDuration | LTJson
  | LEInt | LEReal | LEDecimal | LEString | LETime | LEDuration | LEJson
  | GTInt | GTReal | GTDecimal | GTString | GTTime | GTDuration | GTJson
  | GEInt | GEReal | GEDecimal | GEString | GETime | GEDuration | GEJson
  | NEInt | NEReal | NEDecimal | NEString | NETime | NEDuration | NEJson
  | EQInt | EQReal | EQDecimal | EQString | EQTime | EQDuration | EQJson
  | NullEQInt | NullEQReal | NullEQDecimal | NullEQString | NullEQTime
  | NullEQDuration | NullEQJson
  | IntIsNull | RealIsNull | DecimalIsNull | StringIsNull | TimeIsNull
  | DurationIsNull | JsonIsNull
  | IntIsTrue | RealIsTrue | DecimalIsTrue
  | IntIsFalse | RealIsFalse | DecimalIsFalse
  | LogicalAnd | LogicalOr
  | UnaryNotInt | UnaryNotDecimal | UnaryNotReal
  | PlusInt | PlusReal | PlusDecimal
  | MinusInt | MinusReal | MinusDecimal
  | MultiplyDecimal | MultiplyInt | MultiplyIntUnsigned | MultiplyReal
  | ModReal | ModDecimal | DivideDecimal | DivideReal | ModInt
  | LikeSig
  | IfNullInt | IfNullReal | IfNullString | IfNullDecimal | IfNullTime
  | IfNullDuration | IfNullJson
  | IntDivideInt | IntDivideDecimal
  | CaseWhenInt | CaseWhenReal | CaseWhenString | CaseWhenDecimal
  | CaseWhenTime | CaseWhenDuration | CaseWhenJson
  | DateFormatSig
  | AbsInt | AbsUInt | AbsReal | AbsDecimal
  | CoalesceInt | CoalesceReal | CoalesceString | CoalesceDecimal
  | CoalesceTime | CoalesceDuration | CoalesceJson
  | InInt | InReal | InString | InDecimal | InTime | InDuration | InJson
  | IfReal | IfJson | IfInt | IfDuration | IfString | IfTime | IfDecimal
  | JsonTypeSig
  | otherSig (code : Nat)

/-- Build errors of the pipeline builder and the registry dispatch (the
source produces them with `other_err!`; messages are kept as structured
constructors). -/
inductive BuildErr
  | noExecutorSpecified
  | unexpectedNonFirstExecutor (tp : ExecType)
  | unexpectedFirstScanner (tp : ExecType)
  | scalarFunctionNotSupported (sig : ScalarFuncSig) (argc : Nat)

/-- A child expression as the dispatch sees it: only its field type's
UNSIGNED flag is inspected. -/
structure Expr where
  fieldTypeUnsigned : Bool
  deriving DecidableEq

/-- Signedness dispatch for integer-family signatures: exactly two children
are required, then the mapper is applied to the two UNSIGNED flags. -/
def map_int_sig (value : ScalarFuncSig) (children : List Expr)
    (mapper : Bool → Bool → RpnFnMeta) : Except BuildErr RpnFnMeta :=
  match children with
  | [lhs, rhs] => .ok (mapper lhs.fieldTypeUnsigned rhs.fieldTypeUnsigned)
  | _ => .error (.scalarFunctionNotSupported value children.length)

/-- The four comparer routines, one per signedness combination. -/
def compare_mapper (op : CmpOp) (lhsIsUnsigned rhsIsUnsigned : Bool) : RpnFnMeta :=
  match lhsIsUnsigned, rhsIsUnsigned with
  | false, false => .compareFn .int op
  | false, true => .compareIntUintFn op
  | true, false => .compareUintIntFn op
  | true, true => .compareUintUintFn op

def plus_mapper (lhsIsUnsigned rhsIsUnsigned : Bool) : RpnFnMeta :=
  match lhsIsUnsigned, rhsIsUnsigned with
  | false, false => .arithmeticFn .intIntPlus
  | false, true => .arithmeticFn .intUintPlus
  | true, false => .arithmeticFn .uintIntPlus
  | true, true => .arithmeticFn .uintUintPlus

def minus_mapper (lhsIsUnsigned rhsIsUnsigned : Bool) : RpnFnMeta :=
  match lhsIsUnsigned, rhsIsUnsigned with
  | false, false => .arithmeticFn .intIntMinus
  | false, true => .arithmeticFn .intUintMinus
  | true, false => .arithmeticFn .uintIntMinus
  | true, true => .arithmeticFn .uintUintMinus

def multiply_mapper (lhsIsUnsigned rhsIsUnsigned : Bool) : RpnFnMeta :=
  match lhsIsUnsigned, rhsIsUnsigned with
  | false, false => .arithmeticFn .intIntMultiply
  | false, true => .arithmeticFn .intUintMultiply
  | true, false => .arithmeticFn .uintIntMultiply
  | true, true => .arithmeticFn .uintUintMultiply

def mod_mapper (lhsIsUnsigned rhsIsUnsigned : Bool) : RpnFnMeta :=
  match lhsIsUnsigned, rhsIsUnsigned with
  | false, false => .arithmeticFn .intIntMod
  | false, true => .arithmeticFn .intUintMod
  | true, false => .arithmeticFn .uintIntMod
  | true, true => .arithmeticFn .uintUintMod

def divide_mapper (lhsIsUnsigned rhsIsUnsigned : Bool) : RpnFnMeta :=
  match lhsIsUnsigned, rhsIsUnsigned with
  | false, false => .arithmeticFn .intDivideInt
  | false, true => .arithmeticFn .intDivideUint
  | true, false => .arithmeticFn .uintDivideInt
  | true, true => .arithmeticFn .uintDivideUint

/-- The signature-to-routine mapping table of `rpn_expr/mod.rs`. -/
def map_pb_sig_to_rpn_func (value : ScalarFuncSig) (children : List Expr) :
    Except BuildErr RpnFnMeta :=
  match value with
  | .LTInt => map_int_sig value children (compare_mapper .lt)
  | .LTReal => .ok (.compareFn .real .lt)
  | .LTDecimal => .ok (.compareFn .decimal .lt)
  | .LTString => .ok (.compareFn .bytes .lt)
  | .LTTime => .ok (.compareFn .dateTime .lt)
  | .LTDuration => .ok (.compareFn .duration .lt)
  | .LTJson => .ok (.compareFn .json .lt)
  | .LEInt => map_int_sig value children (compare_mapper .le)
  | .LEReal => .ok (.compareFn .real .le)
  | .LEDecimal => .ok (.compareFn .decimal .le)
  | .LEString => .ok (.compareFn .bytes .le)
  | .LETime => .ok (.compareFn .dateTime .le)
  | .LEDuration => .ok (.compareFn .duration .le)
  | .LEJson => .ok (.compareFn .json .le)
  | .GTInt => map_int_sig value children (compare_mapper .gt)
  | .GTReal => .ok (.compareFn .real .gt)
  | .GTDecimal => .ok (.compareFn .decimal .gt)
  | .GTString => .ok (.compareFn .bytes .gt)
  | .GTTime => .ok (.compareFn .dateTime .gt)
  | .GTDuration => .ok (.compareFn .duration .gt)
  | .GTJson => .ok (.compareFn .json .gt)
  | .GEInt => map_int_sig value children (compare_mapper .ge)
  | .GEReal => .ok (.compareFn .real .ge)
  | .GEDecimal => .ok (.compareFn .decimal .ge)
  | .GEString => .ok (.compareFn .bytes .ge)
  | .GETime => .ok (.compareFn .dateTime .ge)
  | .GEDuration => .ok (.compareFn .duration .ge)
  | .GEJson => .ok (.compareFn .json .ge)
  | .NEInt => map_int_sig value children (compare_mapper .ne)
  | .NEReal => .ok (.compareFn .real .ne)
  | .NEDecimal => .ok (.compareFn .decimal .ne)
  | .NEString => .ok (.compareFn .bytes .ne)
  | .NETime => .ok (.compareFn .dateTime .ne)
  | .NEDuration => .ok (.compareFn .duration .ne)
  | .NEJson => .ok (.compareFn .json .ne)
  | .EQInt => map_int_sig value children (compare_mapper .eq)
  | .EQReal => .ok (.compareFn .real .eq)
  | .EQDecimal => .ok (.compareFn .decimal .eq)
  | .EQString => .ok (.compareFn .bytes .eq)
  | .EQTime => .ok (.compareFn .dateTime .eq)
  | .EQDuration => .ok (.compareFn .duration .eq)
  | .EQJson => .ok (.compareFn .json .eq)
  | .NullEQInt => map_int_sig value children (compare_mapper .nullEq)
  | .NullEQReal => .ok (.compareFn .real .nullEq)
  | .NullEQDecimal => .ok (.compareFn .decimal .nullEq)
  | .NullEQString => .ok (.compareFn .bytes .nullEq)
  | .NullEQTime => .ok (.compareFn .dateTime .nullEq)
  | .NullEQDuration => .ok (.compareFn .duration .nullEq)
  | .NullEQJson => .ok (.compareFn .json .nullEq)
  | .IntIsNull => .ok (.isNullFn .int)
  | .RealIsNull => .ok (.isNullFn .real)
  | .DecimalIsNull => .ok (.isNullFn .decimal)
  | .StringIsNull => .ok (.isNullFn .bytes)
  | .TimeIsNull => .ok (.isNullFn .dateTime)
  | .DurationIsNull => .ok (.isNullFn .duration)
  | .JsonIsNull => .ok (.isNullFn .json)
  | .IntIsTrue => .ok .intIsTrueFn
  | .RealIsTrue => .ok .realIsTrueFn
  | .DecimalIsTrue => .ok .decimalIsTrueFn
  | .IntIsFalse => .ok .intIsFalseFn
  | .RealIsFalse => .ok .realIsFalseFn
  | .DecimalIsFalse => .ok .decimalIsFalseFn
  | .LogicalAnd => .ok .logicalAndFn
  | .LogicalOr => .ok .logicalOrFn
  | .UnaryNotInt => .ok .unaryNotFn
  | .UnaryNotDecimal => .ok .unaryNotFn
  | .UnaryNotReal => .ok .unaryNotFn
  | .PlusInt => map_int_sig value children plus_mapper
  | .PlusReal => .ok (.arithmeticFn .realPlus)
  | .PlusDecimal => .ok (.arithmeticFn .decimalPlus)
  | .MinusInt => map_int_sig value children minus_mapper
  | .MinusReal => .ok (.arithmeticFn .realMinus)
  | .MinusDecimal => .ok (.arithmeticFn .decimalMinus)
  | .MultiplyDecimal => .ok (.arithmeticFn .decimalMultiply)
  | .MultiplyInt => map_int_sig value children multiply_mapper
  | .MultiplyIntUnsigned => .ok (.arithmeticFn .uintUintMultiply)
  | .MultiplyReal => .ok (.arithmeticFn .realMultiply)
  | .ModReal => .ok (.arithmeticFn .realMod)
  | .ModDecimal => .ok (.arithmeticFn .decimalMod)
  | .DivideDecimal => .ok (.arithmeticWithCtxFn .decimalDivide)
  | .DivideReal => .ok (.arithmeticWithCtxFn .realDivide)
  | .ModInt => map_int_sig value children mod_mapper
  | .LikeSig => .ok .likeFn
  | .IfNullInt => .ok (.ifNullFn .int)
  | .IfNullReal => .ok (.ifNullFn .real)
  | .IfNullString => .ok (.ifNullFn .bytes)
  | .IfNullDecimal => .ok (.ifNullFn .decimal)
  | .IfNullTime => .ok (.ifNullFn .dateTime)
  | .IfNullDuration => .ok (.ifNullFn .duration)
  | .IfNullJson => .ok (.ifNullFn .json)
  | .IntDivideInt => map_int_sig value children divide_mapper
  | .IntDivideDecimal => .ok .intDivideDecimalFn
  | .CaseWhenInt => .ok (.caseWhenFn .int)
  | .CaseWhenReal => .ok (.caseWhenFn .real)
  | .CaseWhenString => .ok (.caseWhenFn .bytes)
  | .CaseWhenDecimal => .ok (.caseWhenFn .decimal)
  | .CaseWhenTime => .ok (.caseWhenFn .dateTime)
  | .CaseWhenDuration => .ok (.caseWhenFn .duration)
  | .CaseWhenJson => .ok (.caseWhenFn .json)
  | .DateFormatSig => .ok .dateFormatFn
  | .AbsInt => .ok .absIntFn
  | .AbsUInt => .ok .absUintFn
  | .AbsReal => .ok .absRealFn
  | .AbsDecimal => .ok .absDecimalFn
  | .CoalesceInt => .ok (.coalesceFn .int)
  | .CoalesceReal => .ok (.coalesceFn .real)
  | .CoalesceString => .ok (.coalesceFn .bytes)
  | .CoalesceDecimal => .ok (.coalesceFn .decimal)
  | .CoalesceTime => .ok (.coalesceFn .dateTime)
  | .CoalesceDuration => .ok (.coalesceFn .duration)
  | .CoalesceJson => .ok (.coalesceFn .json)
  | .InInt => .ok (.compareInFn .int)
  | .InReal => .ok (.compareInFn .real)
  | .InString => .ok (.compareInFn .bytes)
  | .InDecimal => .ok (.compareInFn .decimal)
  | .InTime => .ok (.compareInFn .dateTime)
  | .InDuration => .ok (.compareInFn .duration)
  | .InJson => .ok (.compareInFn .json)
  | .IfReal => .ok (.ifConditionFn .real)
  | .IfJson => .ok (.ifConditionFn .json)
  | .IfInt => .ok (.ifConditionFn .int)
  | .IfDuration => .ok (.ifConditionFn .duration)
  | .IfString => .ok (.ifConditionFn .bytes)
  | .IfTime => .ok (.ifConditionFn .dateTime)
  | .IfDecimal => .ok (.ifConditionFn .decimal)
  | .JsonTypeSig => .ok .jsonTypeFn
  | .otherSig c => .error (.scalarFunctionNotSupported (.otherSig c) children.length)

/-- The integer-family comparison and arithmetic signatures, exactly those
routed through `map_int_sig`. -/
def intFamilySigs : List ScalarFuncSig :=
  [.LTInt, .LEInt, .GTInt, .GEInt, .NEInt, .EQInt, .NullEQInt,
   .PlusInt, .MinusInt, .MultiplyInt, .ModInt, .IntDivideInt]

end Tikv

namespace Tikv

/- ----------------------------------------------------------------------
   Pipeline builder (executor/runner.rs, build_executors)
   ---------------------------------------------------------------------- -/

/-- An operator descriptor: its type tag plus the `unique` hint read from an
index-scan descriptor.  The other stage-specific payloads do not influence
the structural rules modelled here. -/
structure ExecDescriptor where
  tp : ExecType
  idxUnique : Bool
  deriving DecidableEq

/-- A built stage of the normal pipeline.  The stage constructors of the
source (`SelectionExecutor::new` and friends) live outside the excerpt and
are modelled from the spec as total: section 4.1 makes only the structural
rules a build error. -/
inductive NormalExecutor
  | tableScan
  | indexScan (unique : Bool)
  | selection (src : NormalExecutor)
  | hashAgg (src : NormalExecutor)
  | streamAgg (src : NormalExecutor)
  | topN (src : NormalExecutor)
  | limitExec (src : NormalExecutor)
  deriving DecidableEq

/-- Builds the inner-most executor: it must be a table scan or an index scan
(the index scan reads its `unique` hint). -/
def build_first_executor (first : ExecDescriptor) : Except BuildErr NormalExecutor :=
  match first.tp with
  | .typeTableScan => .ok .tableScan
  | .typeIndexScan => .ok (.indexScan first.idxUnique)
  | t => .error (.unexpectedFirstScanner t)

/-- The wrapping loop of `build_executors`: each remaining descriptor wraps
the chain built so far, and any type outside the five wrapper stages is the
`unexpected non-first executor` build error. -/
def buildExecutorsLoop (src : NormalExecutor) :
    List ExecDescriptor → Except BuildErr NormalExecutor
  | [] => .ok src
  | d :: rest =>
    match d.tp with
    | .typeSelection => buildExecutorsLoop (.selection src) rest
    | .typeAggregation => buildExecutorsLoop (.hashAgg src) rest
    | .typeStreamAgg => buildExecutorsLoop (.streamAgg src) rest
    | .typeTopN => buildExecutorsLoop (.topN src) rest
    | .typeLimit => buildExecutorsLoop (.limitExec src) rest
    | t => .error (.unexpectedNonFirstExecutor t)

/-- Builds a normal executor pipeline from the descriptor sequence. -/
def build_executors (ds : List ExecDescriptor) : Except BuildErr NormalExecutor :=
  match ds with
  | [] => .error .noExecutorSpecified
  | first :: rest =>
    match build_first_executor first with
    | .error e => .error e
    | .ok src => buildExecutorsLoop src rest

/-- Whether a descriptor type may appear in a non-first position. -/
def isWrapperType (t : ExecType) : Bool :=
  match t with
  | .typeSelection => true
  | .typeAggregation => true
  | .typeStreamAgg => true
  | .typeTopN => true
  | .typeLimit => true
  | _ => false

/-- Whether a descriptor type may appear first. -/
def isScanType (t : ExecType) : Bool :=
  match t with
  | .typeTableScan => true
  | .typeIndexScan => true
  | _ => false

end Tikv

namespace Tikv

/- ----------------------------------------------------------------------
   Execution runner (executor/runner.rs, ExecutorsRunner)
   ---------------------------------------------------------------------- -/

/-- Per-operator execution summary. -/
structure ExecSummary where
  numIterations : Nat
  numProducedRows : Nat
  timeProcessedNs : Nat
  deriving DecidableEq

def ExecSummary.zero : ExecSummary := ⟨0, 0, 0⟩

def ExecSummary.add (a b : ExecSummary) : ExecSummary :=
  ⟨a.numIterations + b.numIterations,
   a.numProducedRows + b.numProducedRows,
   a.timeProcessedNs + b.timeProcessedNs⟩

/-- Elementwise addition of per-range counters, keeping the longer tail. -/
def addCounts : List Nat → List Nat → List Nat
  | [], ys => ys
  | xs, [] => xs
  | x :: xs, y :: ys => (x + y) :: addCounts xs ys

/-- Elementwise addition of per-operator summaries, keeping the longer tail. -/
def addSummaries : List ExecSummary → List ExecSummary → List ExecSummary
  | [], ys => ys
  | xs, [] => xs
  | x :: xs, y :: ys => x.add y :: addSummaries xs ys

/-- Modelled from the spec: `ExecuteStats` lives in
`components/tidb_query/src/execute_stats.rs`, outside the excerpt.  Per the
spec it holds rows scanned per key range and optional per-operator
summaries, and is reset after being drained into a response. -/
structure ExecuteStats where
  scannedRowsPerRange : List Nat
  summaryPerExecutor : List ExecSummary
  deriving DecidableEq

def ExecuteStats.empty : ExecuteStats := ⟨[], []⟩

/-- Modelled from the spec: `ExecuteStats::new` allocates one summary slot
per executor (zero slots when summaries are not collected). -/
def ExecuteStats.new (slots : Nat) : ExecuteStats :=
  ⟨[], List.replicate slots ExecSummary.zero⟩

/-- Modelled from the spec: clearing resets the statistics so the runner can
be invoked again. -/
def ExecuteStats.clear (_s : ExecuteStats) : ExecuteStats := ExecuteStats.empty

/-- The unconsumed remainder of the active key range. -/
structure IntervalRange where
  lowerInclusive : Bytes
  upperExclusive : Bytes
  deriving DecidableEq

def IntervalRange.empty : IntervalRange := ⟨[], []⟩

/-- Modelled from the spec: the built operator chain's behaviour (its
concrete executors live outside the excerpt).  `steps` is the sequence of
outcomes of successive `next()` calls - an error or a produced row; when the
list is exhausted, `next()` reports exhaustion.  `scanned` and `summaries`
are the statistics the chain hands over on `collect_exec_stats`, and
`scannedRange` is what `take_scanned_range` yields. -/
instance {ε α : Type} [DecidableEq ε] [DecidableEq α] : DecidableEq (Except ε α) :=
  fun a b =>
    match a, b with
    | .ok x, .ok y =>
      if h : x = y then .isTrue (by rw [h])
      else .isFalse (fun hc => h (Except.ok.inj hc))
    | .error x, .error y =>
      if h : x = y then .isTrue (by rw [h])
      else .isFalse (fun hc => h (Except.error.inj hc))
    | .ok _, .error _ => .isFalse (fun hc => Except.noConfusion hc)
    | .error _, .ok _ => .isFalse (fun hc => Except.noConfusion hc)

structure SourceExec where
  steps : List (Except QErr Row)
  scanned : List Nat
  summaries : List ExecSummary
  scannedRange : IntervalRange
  deriving DecidableEq

/-- Modelled from the spec: the chain merges its pending statistics into the
destination and keeps none (statistics are drained, then cleared, at
response time). -/
def SourceExec.collect_exec_stats (e : SourceExec) (dest : ExecuteStats) :
    SourceExec × ExecuteStats :=
  ({ e with scanned := [], summaries := [] },
   ⟨addCounts dest.scannedRowsPerRange e.scanned,
    addSummaries dest.summaryPerExecutor e.summaries⟩)

/-- Modelled from the spec: taking the scanned range moves it out of the
chain (the caller uses it to resume an in-flight range). -/
def SourceExec.take_scanned_range (e : SourceExec) : IntervalRange × SourceExec :=
  (e.scannedRange, { e with scannedRange := IntervalRange.empty })

/-- Modelled from the spec: `Row::get_binary` projects the row through the
output offsets, an out-of-range offset being an evaluation-time error. -/
def getBinaryRow (offs : List Nat) (row : Row) : Except QErr (List Int) :=
  if offs.all (fun i => decide (i < row.length)) then
    .ok (offs.map (fun i => row.getD i 0))
  else
    .error (.evaluate 1 1)

/-- Modelled from the spec: the deadline is an absolute bound checked
cooperatively once per produced row; monotone time is abstracted by counting
checks, so a deadline of `some n` passes the first `n` checks and fails from
then on, and `none` never expires. -/
def deadlineCheck (dl : Option Nat) (checksDone : Nat) : Except QErr Unit :=
  match dl with
  | none => .ok ()
  | some n => if checksDone < n then .ok () else .error .deadlineExceeded

/-- The state of `ExecutorsRunner`, plus `checksDone`, the count of deadline
checks performed so far (the model of elapsed time). -/
structure ExecutorsRunner where
  deadline : Option Nat
  checksDone : Nat
  executor : SourceExec
  outputOffsets : List Nat
  batchRowLimit : Nat
  collectExecSummary : Bool
  execStats : ExecuteStats
  deriving DecidableEq

/-- `SelectResponse`: chunks, per-range output counts, optional summaries,
and the optional embedded evaluation error (code, message). -/
structure SelectResponse where
  chunks : List Chunk
  outputCounts : List Nat
  executionSummaries : Option (List ExecSummary)
  error : Option (Nat × Nat)
  deriving DecidableEq

/-- `StreamResponse`: one chunk's encoded rows, per-range output counts, and
the optional embedded evaluation error. -/
structure StreamResponse where
  data : List (List Int)
  outputCounts : List Nat
  error : Option (Nat × Nat)
  deriving DecidableEq

/-- Appends one encoded row to the last chunk (`chunks.last_mut()`); the
empty case is unreachable in `handle_request`, which always opens a chunk
first. -/
def appendToLastChunk : List Chunk → List Int → List Chunk
  | [], v => [[v]]
  | [c], v => [c ++ [v]]
  | c :: c2 :: rest, v => c :: appendToLastChunk (c2 :: rest) v

/-- The pull loop of `handle_request`: pull a row, check the deadline, open
a fresh chunk when none is open or the row limit is reached, then append the
row's projection.  Returns the chunks and the updated check count. -/
def handleRequestGo (dl : Option Nat) (offs : List Nat) (limit : Nat) :
    Nat → List Chunk → Nat → List (Except QErr Row) →
    Except QErr (List Chunk × Nat)
  | checks, chunks, _, [] => .ok (chunks, checks)
  | checks, chunks, recordCnt, step :: rest =>
    match step with
    | .error e => .error e
    | .ok row =>
      match deadlineCheck dl checks with
      | .error e => .error e
      | .ok _ =>
        if chunks = [] ∨ limit ≤ recordCnt then
          match getBinaryRow offs row with
          | .error e => .error e
          | .ok v =>
            handleRequestGo dl offs limit (checks + 1)
              (appendToLastChunk (chunks ++ [([] : Chunk)]) v) (0 + 1) rest
        else
          match getBinaryRow offs row with
          | .error e => .error e
          | .ok v =>
            handleRequestGo dl offs limit (checks + 1)
              (appendToLastChunk chunks v) (recordCnt + 1) rest

/-- `ExecutorsRunner::handle_request`: drive the chain to exhaustion, then
drain statistics into the response and clear them.  Warnings are left out of
the model.  On an error the mutated runner is dropped (every claim below
concerns the successful paths). -/
def ExecutorsRunner.handle_request (r : ExecutorsRunner) :
    Except QErr (SelectResponse × ExecutorsRunner) :=
  match handleRequestGo r.deadline r.outputOffsets r.batchRowLimit
      r.checksDone [] 0 r.executor.steps with
  | .error e => .error e
  | .ok (chunks, checks) =>
    let es := SourceExec.collect_exec_stats { r.executor with steps := [] } r.execStats
    let resp : SelectResponse :=
      { chunks := chunks
        outputCounts := es.2.scannedRowsPerRange
        executionSummaries :=
          if r.collectExecSummary then some es.2.summaryPerExecutor else none
        error := none }
    .ok (resp,
      { r with executor := es.1, checksDone := checks,
               execStats := ExecuteStats.clear es.2 })

/-- The pull loop of `handle_streaming_request`: while the row limit is not
reached, pull a row (exhaustion sets the finished flag), check the deadline
and append the projection.  Returns the chunk, the record count, the updated
check count, the finished flag and the unconsumed steps. -/
def handleStreamingGo (dl : Option Nat) (offs : List Nat) (limit : Nat) :
    Nat → Nat → List (List Int) → List (Except QErr Row) →
    Except QErr (List (List Int) × Nat × Nat × Bool × List (Except QErr Row))
  | checks, recordCnt, chunk, [] =>
    if recordCnt < limit then .ok (chunk, recordCnt, checks, true, [])
    else .ok (chunk, recordCnt, checks, false, [])
  | checks, recordCnt, chunk, step :: rest =>
    if recordCnt < limit then
      match step with
      | .error e => .error e
      | .ok row =>
        match deadlineCheck dl checks with
        | .error e => .error e
        | .ok _ =>
          match getBinaryRow offs row with
          | .error e => .error e
          | .ok v =>
            handleStreamingGo dl offs limit (checks + 1) (recordCnt + 1)
              (chunk ++ [v]) rest
    else .ok (chunk, recordCnt, checks, false, step :: rest)

/-- `ExecutorsRunner::make_stream_response`: drain statistics into a stream
response and clear them (warnings and serialization are left out). -/
def ExecutorsRunner.make_stream_response (r : ExecutorsRunner)
    (chunk : List (List Int)) : StreamResponse × ExecutorsRunner :=
  let es := SourceExec.collect_exec_stats r.executor r.execStats
  (⟨chunk, es.2.scannedRowsPerRange, none⟩,
   { r with executor := es.1, execStats := ExecuteStats.clear es.2 })

/-- `ExecutorsRunner::handle_streaming_request`: pull one bounded batch; when
no row was produced report `(none, true)`, otherwise package the chunk with
the taken scanned range. -/
def ExecutorsRunner.handle_streaming_request (r : ExecutorsRunner) :
    Except QErr (Option (StreamResponse × IntervalRange) × Bool × ExecutorsRunner) :=
  match handleStreamingGo r.deadline r.outputOffsets r.batchRowLimit
      r.checksDone 0 [] r.executor.steps with
  | .error e => .error e
  | .ok (chunk, recordCnt, checks, finished, rest) =>
    let r1 : ExecutorsRunner :=
      { r with executor := { r.executor with steps := rest }, checksDone := checks }
    if 0 < recordCnt then
      let rg := r1.executor.take_scanned_range
      let r2 : ExecutorsRunner := { r1 with executor := rg.2 }
      let sr := r2.make_stream_response chunk
      .ok (some (sr.1, rg.1), finished, sr.2)
    else
      .ok (none, true, r1)

/-- Total rows across the chunks of a response. -/
def chunksRowCount (cs : List Chunk) : Nat := (cs.map List.length).sum

/-- Rows carried by a streaming result. -/
def streamRowCount (out : Option (StreamResponse × IntervalRange)) : Nat :=
  match out with
  | none => 0
  | some (s, _) => s.data.length

/-- Whether one `next()` outcome is a row whose projection succeeds (used to
describe executors that neither fail nor run out before the deadline does). -/
def stepOkFor (offs : List Nat) (s : Except QErr Row) : Bool :=
  match s with
  | .error _ => false
  | .ok row =>
    match getBinaryRow offs row with
    | .ok _ => true
    | .error _ => false

/-- Every step of the list is a successfully projectable row. -/
def okRowSteps (offs : List Nat) (steps : List (Except QErr Row)) : Prop :=
  ∀ s ∈ steps, stepOkFor offs s = true

instance (offs : List Nat) (steps : List (Except QErr Row)) :
    Decidable (okRowSteps offs steps) :=
  List.decidableBAll _ steps

end Tikv

namespace Tikv

/- ----------------------------------------------------------------------
   Coprocessor DAG glue (src/coprocessor/dag/mod.rs)
   ---------------------------------------------------------------------- -/

/-- A parsed DAG request: the descriptor list, output offsets and the
collect-execution-summaries flag (the other fields do not influence the
modelled control flow). -/
structure DAGReq where
  executors : List ExecDescriptor
  outputOffsets : List Nat
  collectExecutionSummaries : Bool
  deriving DecidableEq

/-- `ExecutorsRunner::from_request`: build the pipeline from the descriptor
list (the error propagates), then assemble the runner state.  The chain's
runtime behaviour is the supplied `SourceExec` stream; evaluation-config
parsing, which lives outside the excerpt, is modelled as succeeding. -/
def ExecutorsRunner.from_request (req : DAGReq) (src : SourceExec)
    (deadline : Option Nat) (batchRowLimit : Nat) (isStreaming : Bool) :
    Except BuildErr ExecutorsRunner :=
  match build_executors req.executors with
  | .error e => .error e
  | .ok _chain =>
    let _ := isStreaming
    .ok
      { deadline := deadline
        checksDone := 0
        executor := src
        outputOffsets := req.outputOffsets
        batchRowLimit := batchRowLimit
        collectExecSummary := req.collectExecutionSummaries
        execStats :=
          ExecuteStats.new
            (if req.collectExecutionSummaries then req.executors.length else 0) }

/-- Modelled from the spec: the vectorized batch runner lives outside the
excerpt; only the fact that a batch handler is built matters to the claims. -/
structure BatchExecutorsRunner where
  req : DAGReq
  deriving DecidableEq

/-- Modelled from the spec: construction of the batch runner once the
capability check succeeded. -/
def BatchExecutorsRunner.from_request (req : DAGReq) :
    Except BuildErr BatchExecutorsRunner :=
  .ok ⟨req⟩

/-- The two handler kinds `build_handler` can produce. -/
inductive RequestHandler
  | normal (r : ExecutorsRunner)
  | batch (b : BatchExecutorsRunner)
  deriving DecidableEq

/-- `build_handler`: when batch is enabled and the request is not streaming,
probe the capability check; a check failure is only logged and falls back to
the normal handler.  The capability check itself lives outside the excerpt,
so it is a parameter and every theorem quantifies over it. -/
def build_handler (check_supported : List ExecDescriptor → Except BuildErr Unit)
    (req : DAGReq) (src : SourceExec) (deadline : Option Nat)
    (batchRowLimit : Nat) (isStreaming : Bool) (enableBatchIfPossible : Bool) :
    Except BuildErr RequestHandler :=
  let isBatch :=
    if enableBatchIfPossible && !isStreaming then
      match check_supported req.executors with
      | .error _e => false
      | .ok _ => true
    else false
  if isBatch then
    match BatchExecutorsRunner.from_request req with
    | .error e => .error e
    | .ok b => .ok (.batch b)
  else
    match ExecutorsRunner.from_request req src deadline batchRowLimit isStreaming with
    | .error e => .error e
    | .ok r => .ok (.normal r)

/-- A transport-level request failure (the whole call fails). -/
inductive TransportErr
  | storage (code : Nat)
  | deadlineExceeded
  deriving DecidableEq

/-- The payload a coprocessor `Response` carries in `data`. -/
inductive ResponsePayload
  | select (s : SelectResponse)
  | stream (s : StreamResponse)
  deriving DecidableEq

/-- A coprocessor `Response`: its serialized payload and the optional resumed
range set by the streaming path. -/
structure CopResponse where
  data : ResponsePayload
  range : Option IntervalRange
  deriving DecidableEq

/-- `handle_qe_response`: a storage error fails the request at transport
level; an evaluation error is embedded as code and message inside a
successful response.  The deadline arm is modelled from the spec (section 7:
deadline expiry is fatal at transport level). -/
def handle_qe_response (result : Except QErr SelectResponse) :
    Except TransportErr CopResponse :=
  match result with
  | .ok selResp => .ok ⟨.select selResp, none⟩
  | .error e =>
    match e with
    | .storage code => .error (.storage code)
    | .evaluate code msg =>
      .ok ⟨.select { chunks := [], outputCounts := [],
                     executionSummaries := none, error := some (code, msg) },
           none⟩
    | .deadlineExceeded => .error .deadlineExceeded

/-- `handle_qe_stream_response`: the streaming analogue; an evaluation error
is embedded in a stream response with the finished flag set to true, and the
resumed range is attached only on the successful path. -/
def handle_qe_stream_response
    (result : Except QErr (Option (StreamResponse × IntervalRange) × Bool)) :
    Except TransportErr (Option CopResponse × Bool) :=
  match result with
  | .ok (some (sResp, range), finished) =>
    .ok (some ⟨.stream sResp, some range⟩, finished)
  | .ok (none, finished) => .ok (none, finished)
  | .error e =>
    match e with
    | .storage code => .error (.storage code)
    | .evaluate code msg =>
      .ok (some ⟨.stream { data := [], outputCounts := [],
                           error := some (code, msg) }, none⟩, true)
    | .deadlineExceeded => .error .deadlineExceeded

end Tikv

namespace Tikv

/- ----------------------------------------------------------------------
   Table split-boundary checker (raftstore/coprocessor/split_check/table.rs)
   ---------------------------------------------------------------------- -/

/-- Modelled from the spec: `TABLE_PREFIX` of the table codec (the byte
`t`), outside the excerpt. -/
def tablePfxBytes : Bytes := [116]

/-- Modelled from the spec: `TABLE_PREFIX_KEY_LEN + 1`, the ten leading
bytes that identify the table a key belongs to. -/
def encodedTableTablePfxLen : Nat := 10

/-- Whether an encoded key is a table key: it starts with the table prefix
and is long enough to carry a table id. -/
def is_table_key (encodedKey : Bytes) : Bool :=
  tablePfxBytes.isPrefixOf encodedKey &&
    decide (encodedTableTablePfxLen ≤ encodedKey.length)

/-- Whether two keys belong to the same table: both are table keys and share
the identifying prefix. -/
def is_same_table (leftKey rightKey : Bytes) : Bool :=
  is_table_key leftKey && is_table_key rightKey &&
    decide (leftKey.take encodedTableTablePfxLen =
      rightKey.take encodedTableTablePfxLen)

/-- The split checker's state. -/
structure Checker where
  firstEncodedTablePfx : Option Bytes
  splitKey : Option Bytes
  deriving DecidableEq

def Checker.default : Checker := ⟨none, none⟩

/-- `Checker::on_kv`: feed one key.  `originK` strips the store's data
prefix and `toPfx` extracts the encoded table prefix of a key; both live
outside the excerpt, so they are parameters.  Returns whether a split key is
now pending together with the new state. -/
def Checker.on_kv (originK : Bytes → Bytes) (toPfx : Bytes → Option Bytes)
    (c : Checker) (entryKey : Bytes) : Bool × Checker :=
  if c.splitKey.isSome then (true, c)
  else
    let currentEncodedKey := originK entryKey
    let splitKey : Option Bytes :=
      match c.firstEncodedTablePfx with
      | some fp =>
        if !is_same_table fp currentEncodedKey then some currentEncodedKey
        else none
      | none =>
        if is_table_key currentEncodedKey then some currentEncodedKey
        else none
    let c2 : Checker := { c with splitKey := splitKey.bind toPfx }
    (c2.splitKey.isSome, c2)

/-- `Checker::split_keys`: take the pending split key, yielding the empty
list or a singleton. -/
def Checker.split_keys (c : Checker) : List Bytes × Checker :=
  match c.splitKey with
  | none => ([], { c with splitKey := none })
  | some key => ([key], { c with splitKey := none })

end Tikv

namespace Tikv

/- ----------------------------------------------------------------------
   Helper lemmas
   ---------------------------------------------------------------------- -/

lemma appendToLastChunk_concat :
    ∀ (cs : List Chunk) (c : Chunk) (v : List Int),
      appendToLastChunk (cs ++ [c]) v = cs ++ [c ++ [v]]
  | [], _, _ => rfl
  | [_], _, _ => rfl
  | a :: b :: cs, c, v => by
    have ih := appendToLastChunk_concat (b :: cs) c v
    show a :: appendToLastChunk ((b :: cs) ++ [c]) v = a :: ((b :: cs) ++ [c ++ [v]])
    rw [ih]

lemma chunksRowCount_appendToLastChunk :
    ∀ (cs : List Chunk) (v : List Int),
      chunksRowCount (appendToLastChunk cs v) = chunksRowCount cs + 1
  | [], _ => rfl
  | [c], v => by simp [appendToLastChunk, chunksRowCount]
  | a :: b :: cs, v => by
    have ih := chunksRowCount_appendToLastChunk (b :: cs) v
    simp only [appendToLastChunk, chunksRowCount, List.map_cons, List.sum_cons] at ih ⊢
    omega

lemma chunksRowCount_push (cs : List Chunk) :
    chunksRowCount (cs ++ [([] : Chunk)]) = chunksRowCount cs := by
  simp [chunksRowCount]

/-- The loop of `build_executors` succeeds exactly when every remaining
descriptor is one of the five wrapper stages. -/
lemma buildExecutorsLoop_ok_iff :
    ∀ (rest : List ExecDescriptor) (src : NormalExecutor),
      (∃ ex, buildExecutorsLoop src rest = .ok ex) ↔
        ∀ d ∈ rest, isWrapperType d.tp = true := by
  intro rest
  induction rest with
  | nil => intro src; simp [buildExecutorsLoop]
  | cons d rest ih =>
    intro src
    cases htp : d.tp <;>
      simp [buildExecutorsLoop, htp, isWrapperType, ih]

/- ----------------------------------------------------------------------
   C1: structural rules of the pipeline builder
   ---------------------------------------------------------------------- -/

/-- A nonempty sequence builds exactly when the head is a scan and the tail
is all wrappers. -/
lemma build_executors_cons_ok_iff (first : ExecDescriptor)
    (rest : List ExecDescriptor) :
    (∃ ex, build_executors (first :: rest) = .ok ex) ↔
      (isScanType first.tp = true ∧ ∀ d ∈ rest, isWrapperType d.tp = true) := by
  cases hf : first.tp <;>
    simp [build_executors, build_first_executor, hf, isScanType,
      buildExecutorsLoop_ok_iff]

/-- C1.  A descriptor sequence builds successfully exactly when it is
nonempty, starts with a table or index scan, and every later descriptor is
one of Selection, hash Aggregation, StreamAgg, TopN, Limit; the empty
sequence is the `no executor specified` build error, and every other
violation also fails (the iff's negative direction). -/
theorem build_executors_pipeline_shape :
    ∀ ds : List ExecDescriptor,
      ((∃ ex, build_executors ds = .ok ex) ↔
        (∃ first rest, ds = first :: rest ∧ isScanType first.tp = true ∧
          ∀ d ∈ rest, isWrapperType d.tp = true)) ∧
      build_executors ([] : List ExecDescriptor) = .error .noExecutorSpecified := by
  intro ds
  refine ⟨?_, rfl⟩
  cases ds with
  | nil => simp [build_executors]
  | cons first rest =>
    rw [build_executors_cons_ok_iff]
    constructor
    · rintro ⟨hs, hw⟩
      exact ⟨first, rest, rfl, hs, hw⟩
    · rintro ⟨f, r, heq, hs, hw⟩
      obtain ⟨rfl, rfl⟩ : first = f ∧ rest = r := by
        injection heq with h1 h2
        exact ⟨h1, h2⟩
      exact ⟨hs, hw⟩

/- ----------------------------------------------------------------------
   C6: error packaging at the response boundary
   ---------------------------------------------------------------------- -/

/-- C6.  A storage error fails the whole request at transport level with no
payload; an evaluation error becomes a successful response whose payload
carries the error's code and message instead of chunk data, and in streaming
mode the finished flag is additionally true. -/
theorem response_error_packaging :
    (∀ selResp, handle_qe_response (.ok selResp) = .ok ⟨.select selResp, none⟩) ∧
    (∀ code, handle_qe_response (.error (.storage code)) = .error (.storage code)) ∧
    (∀ code msg,
      handle_qe_response (.error (.evaluate code msg)) =
        .ok ⟨.select { chunks := [], outputCounts := [],
                       executionSummaries := none, error := some (code, msg) },
             none⟩) ∧
    (∀ code, handle_qe_stream_response (.error (.storage code)) =
      .error (.storage code)) ∧
    (∀ code msg,
      handle_qe_stream_response (.error (.evaluate code msg)) =
        .ok (some ⟨.stream { data := [], outputCounts := [],
                             error := some (code, msg) }, none⟩, true)) :=
  ⟨fun _ => rfl, fun _ => rfl, fun _ _ => rfl, fun _ => rfl, fun _ _ => rfl⟩

/- ----------------------------------------------------------------------
   C7 and C10: mode selection in build_handler
   ---------------------------------------------------------------------- -/

/-- C7.  When the batch capability check fails, `build_handler` is exactly
the normal-handler construction: the check's error is never surfaced. -/
theorem batch_check_failure_fallback :
    ∀ (check_supported : List ExecDescriptor → Except BuildErr Unit)
      (req : DAGReq) (src : SourceExec) (dl : Option Nat) (limit : Nat)
      (strm enb : Bool) (e : BuildErr),
      check_supported req.executors = .error e →
      build_handler check_supported req src dl limit strm enb =
        Except.map RequestHandler.normal
          (ExecutorsRunner.from_request req src dl limit strm) := by
  intro check_supported req src dl limit strm enb e hchk
  unfold build_handler
  simp only [hchk]
  have hfalse : (if enb && !strm then false else false) = false := ite_self false
  rw [hfalse]
  cases ExecutorsRunner.from_request req src dl limit strm <;> simp [Except.map]

/-- C10.  A streaming request never selects the batch path, whatever the
enable flag and the capability check say. -/
theorem streaming_never_batch :
    ∀ (check_supported : List ExecDescriptor → Except BuildErr Unit)
      (req : DAGReq) (src : SourceExec) (dl : Option Nat) (limit : Nat)
      (enb : Bool),
      build_handler check_supported req src dl limit true enb =
        Except.map RequestHandler.normal
          (ExecutorsRunner.from_request req src dl limit true) := by
  intro check_supported req src dl limit enb
  unfold build_handler
  simp only [Bool.not_true, Bool.and_false, Bool.false_eq_true, if_false]
  cases ExecutorsRunner.from_request req src dl limit true <;> simp [Except.map]

def c7check : List ExecDescriptor → Except BuildErr Unit :=
  fun _ => .error .noExecutorSpecified

def c7req : DAGReq := ⟨[⟨.typeTableScan, false⟩], [0], false⟩

def c7src : SourceExec := ⟨[], [], [], ⟨[], []⟩⟩

/-- Witness for C7 at a concrete request whose capability check fails. -/
theorem batch_check_failure_fallback_wit :
    c7check c7req.executors = .error .noExecutorSpecified ∧
    build_handler c7check c7req c7src none 5 false true =
      Except.map RequestHandler.normal
        (ExecutorsRunner.from_request c7req c7src none 5 false) :=
  ⟨rfl, batch_check_failure_fallback c7check c7req c7src none 5 false true
    .noExecutorSpecified rfl⟩

/- ----------------------------------------------------------------------
   C9: the table split checker emits at most one key
   ---------------------------------------------------------------------- -/

/-- C9.  After feeding any sequence of keys to the checker, `split_keys`
yields at most one key: the empty list exactly when no boundary crossing is
pending, a singleton otherwise; `on_kv` reports exactly whether a split key
is pending. -/
theorem table_split_keys_at_most_one :
    ∀ (originK : Bytes → Bytes) (toPfx : Bytes → Option Bytes)
      (init : Checker) (entries : List Bytes),
      ((Checker.split_keys (entries.foldl
          (fun st k => (Checker.on_kv originK toPfx st k).2) init)).1.length ≤ 1) ∧
      (((Checker.split_keys (entries.foldl
          (fun st k => (Checker.on_kv originK toPfx st k).2) init)).1 = []) ↔
        (entries.foldl
          (fun st k => (Checker.on_kv originK toPfx st k).2) init).splitKey = none) ∧
      (∀ (st : Checker) (k : Bytes),
        (Checker.on_kv originK toPfx st k).1 =
          ((Checker.on_kv originK toPfx st k).2.splitKey).isSome) := by
  intro originK toPfx init entries
  refine ⟨?_, ?_, ?_⟩
  · cases hc : (entries.foldl
        (fun st k => (Checker.on_kv originK toPfx st k).2) init).splitKey <;>
      simp [Checker.split_keys, hc]
  · cases hc : (entries.foldl
        (fun st k => (Checker.on_kv originK toPfx st k).2) init).splitKey <;>
      simp [Checker.split_keys, hc]
  · intro st k
    unfold Checker.on_kv
    by_cases h : st.splitKey.isSome
    · simp [h]
    · simp [h]

end Tikv

namespace Tikv

/- ----------------------------------------------------------------------
   Loop lemmas for the execution runner
   ---------------------------------------------------------------------- -/

/-- A successful non-streaming loop performs exactly one deadline check per
appended row. -/
lemma hgo_counts (dl : Option Nat) (offs : List Nat) (limit : Nat) :
    ∀ (steps : List (Except QErr Row)) (checks : Nat) (chunks : List Chunk)
      (rc : Nat) (out : List Chunk × Nat),
      handleRequestGo dl offs limit checks chunks rc steps = .ok out →
      out.2 + chunksRowCount chunks = checks + chunksRowCount out.1 ∧
      checks ≤ out.2 := by
  intro steps
  induction steps with
  | nil =>
    intro checks chunks rc out h
    simp only [handleRequestGo, Except.ok.injEq] at h
    subst h
    exact ⟨rfl, Nat.le_refl _⟩
  | cons step rest ih =>
    intro checks chunks rc out h
    cases step with
    | error e => simp [handleRequestGo] at h
    | ok row =>
      simp only [handleRequestGo] at h
      cases hd : deadlineCheck dl checks with
      | error e => rw [hd] at h; simp at h
      | ok u =>
        rw [hd] at h
        by_cases hc : (chunks = [] ∨ limit ≤ rc)
        · rw [if_pos hc] at h
          cases hg : getBinaryRow offs row with
          | error e => rw [hg] at h; simp at h
          | ok v =>
            rw [hg] at h
            obtain ⟨i1, i2⟩ := ih (checks + 1) _ (0 + 1) out h
            rw [chunksRowCount_appendToLastChunk, chunksRowCount_push] at i1
            exact ⟨by omega, by omega⟩
        · rw [if_neg hc] at h
          cases hg : getBinaryRow offs row with
          | error e => rw [hg] at h; simp at h
          | ok v =>
            rw [hg] at h
            obtain ⟨i1, i2⟩ := ih (checks + 1) _ (rc + 1) out h
            rw [chunksRowCount_appendToLastChunk] at i1
            exact ⟨by omega, by omega⟩

/-- The shape invariant of the chunk accumulator: either no chunk is open, or
the last chunk holds `rc` rows, every completed chunk holds exactly `limit`
rows, and the open chunk is within the limit. -/
def ChunkInv (limit : Nat) (chunks : List Chunk) (rc : Nat) : Prop :=
  (chunks = [] ∧ rc = 0) ∨
    ∃ cs c, chunks = cs ++ [c] ∧ rc = c.length ∧ c.length ≤ limit ∧
      ∀ x ∈ cs, x.length = limit

/-- The loop preserves the chunk-shape invariant whenever the limit is at
least one. -/
lemma hgo_inv (dl : Option Nat) (offs : List Nat) (limit : Nat)
    (hlim : 1 ≤ limit) :
    ∀ (steps : List (Except QErr Row)) (checks : Nat) (chunks : List Chunk)
      (rc : Nat) (out : List Chunk × Nat),
      handleRequestGo dl offs limit checks chunks rc steps = .ok out →
      ChunkInv limit chunks rc →
      ∃ rc2, ChunkInv limit out.1 rc2 := by
  intro steps
  induction steps with
  | nil =>
    intro checks chunks rc out h hinv
    simp only [handleRequestGo, Except.ok.injEq] at h
    subst h
    exact ⟨rc, hinv⟩
  | cons step rest ih =>
    intro checks chunks rc out h hinv
    cases step with
    | error e => simp [handleRequestGo] at h
    | ok row =>
      simp only [handleRequestGo] at h
      cases hd : deadlineCheck dl checks with
      | error e => rw [hd] at h; simp at h
      | ok u =>
        rw [hd] at h
        by_cases hc : (chunks = [] ∨ limit ≤ rc)
        · rw [if_pos hc] at h
          cases hg : getBinaryRow offs row with
          | error e => rw [hg] at h; simp at h
          | ok v =>
            rw [hg] at h
            refine ih (checks + 1) _ (0 + 1) out h (Or.inr ⟨chunks, [v], ?_, rfl, ?_, ?_⟩)
            · rw [appendToLastChunk_concat]; simp
            · simpa using hlim
            · rcases hinv with ⟨rfl, -⟩ | ⟨cs, c, rfl, hrc, hle, hall⟩
              · intro x hx; simp at hx
              · have hcl : c.length = limit := by
                  rcases hc with hnil | hge
                  · exact absurd hnil (by simp)
                  · omega
                intro x hx
                rcases List.mem_append.1 hx with hx | hx
                · exact hall x hx
                · simp at hx; subst hx; exact hcl
        · rw [if_neg hc] at h
          push_neg at hc
          obtain ⟨hne, hlt⟩ := hc
          cases hg : getBinaryRow offs row with
          | error e => rw [hg] at h; simp at h
          | ok v =>
            rw [hg] at h
            rcases hinv with ⟨rfl, -⟩ | ⟨cs, c, rfl, hrc, hle, hall⟩
            · exact absurd rfl hne
            · refine ih (checks + 1) _ (rc + 1) out h
                (Or.inr ⟨cs, c ++ [v], ?_, ?_, ?_, hall⟩)
              · rw [appendToLastChunk_concat]
              · simp [hrc]
              · simp only [List.length_append, List.length_cons, List.length_nil]
                omega

/-- When the deadline expires while rows keep coming, the non-streaming loop
fails with the deadline error. -/
lemma hgo_deadline (offs : List Nat) (limit N : Nat) :
    ∀ (steps : List (Except QErr Row)) (checks : Nat) (chunks : List Chunk)
      (rc : Nat),
      okRowSteps offs steps → checks ≤ N → N < checks + steps.length →
      handleRequestGo (some N) offs limit checks chunks rc steps =
        .error .deadlineExceeded := by
  intro steps
  induction steps with
  | nil =>
    intro checks chunks rc _ h1 h2
    simp at h2
    omega
  | cons step rest ih =>
    intro checks chunks rc hok h1 h2
    have hstep := hok step (List.mem_cons_self _ _)
    have hrest : okRowSteps offs rest := fun s hs => hok s (List.mem_cons_of_mem _ hs)
    cases step with
    | error e => simp [stepOkFor] at hstep
    | ok row =>
      simp only [handleRequestGo]
      by_cases hN : checks < N
      · have hd : deadlineCheck (some N) checks = .ok () := by
          simp [deadlineCheck, hN]
        cases hg : getBinaryRow offs row with
        | error e => simp [stepOkFor, hg] at hstep
        | ok v =>
          by_cases hc : (chunks = [] ∨ limit ≤ rc)
          · simp only [hd, if_pos hc, hg]
            exact ih (checks + 1) _ (0 + 1) hrest (by omega)
              (by simp at h2 ⊢; omega)
          · simp only [hd, if_neg hc, hg]
            exact ih (checks + 1) _ (rc + 1) hrest (by omega)
              (by simp at h2 ⊢; omega)
      · have hd : deadlineCheck (some N) checks = .error .deadlineExceeded := by
          simp [deadlineCheck]
          omega
        simp only [hd]

/-- Bookkeeping facts about a successful streaming loop: monotone record
count, one appended row and one deadline check per record, the record count
bounded by the limit, a false finished flag exactly on limit exit, and a
true finished flag only after full exhaustion below the limit. -/
lemma sgo_spec (dl : Option Nat) (offs : List Nat) (limit : Nat) :
    ∀ (steps : List (Except QErr Row)) (checks rc : Nat)
      (chunk : List (List Int)) (c2 : List (List Int)) (rc2 ch2 : Nat)
      (fin : Bool) (rest : List (Except QErr Row)),
      handleStreamingGo dl offs limit checks rc chunk steps =
        .ok (c2, rc2, ch2, fin, rest) →
      rc ≤ rc2 ∧ c2.length + rc = chunk.length + rc2 ∧
      ch2 + rc = checks + rc2 ∧ (rc ≤ limit → rc2 ≤ limit) ∧
      (fin = false → limit ≤ rc2) ∧ (fin = true → rc2 < limit ∧ rest = []) := by
  intro steps
  induction steps with
  | nil =>
    intro checks rc chunk c2 rc2 ch2 fin rest h
    simp only [handleStreamingGo] at h
    by_cases hrc : rc < limit
    · rw [if_pos hrc] at h
      simp only [Except.ok.injEq, Prod.mk.injEq] at h
      obtain ⟨rfl, rfl, rfl, rfl, rfl⟩ := h
      exact ⟨Nat.le_refl _, rfl, rfl, fun h => h, fun hf => absurd hf (by simp),
        fun _ => ⟨hrc, rfl⟩⟩
    · rw [if_neg hrc] at h
      simp only [Except.ok.injEq, Prod.mk.injEq] at h
      obtain ⟨rfl, rfl, rfl, rfl, rfl⟩ := h
      exact ⟨Nat.le_refl _, rfl, rfl, fun h => h, fun _ => by omega,
        fun hf => absurd hf (by simp)⟩
  | cons step rest0 ih =>
    intro checks rc chunk c2 rc2 ch2 fin rest h
    by_cases hrc : rc < limit
    · cases step with
      | error e => simp [handleStreamingGo, if_pos hrc] at h
      | ok row =>
        simp only [handleStreamingGo, if_pos hrc] at h
        cases hd : deadlineCheck dl checks with
        | error e => rw [hd] at h; simp at h
        | ok u =>
          rw [hd] at h
          cases hg : getBinaryRow offs row with
          | error e => rw [hg] at h; simp at h
          | ok v =>
            rw [hg] at h
            obtain ⟨i1, i2, i3, i4, i5, i6⟩ :=
              ih (checks + 1) (rc + 1) (chunk ++ [v]) c2 rc2 ch2 fin rest h
            simp only [List.length_append, List.length_cons, List.length_nil] at i2
            exact ⟨by omega, by omega, by omega, fun _ => i4 (by omega), i5, i6⟩
    · simp only [handleStreamingGo, if_neg hrc, Except.ok.injEq, Prod.mk.injEq] at h
      obtain ⟨rfl, rfl, rfl, rfl, rfl⟩ := h
      exact ⟨Nat.le_refl _, rfl, rfl, fun h => h, fun _ => by omega,
        fun hf => absurd hf (by simp)⟩

/-- When the deadline expires before the row limit cuts the loop, the
streaming loop fails with the deadline error. -/
lemma sgo_deadline (offs : List Nat) (limit N : Nat) :
    ∀ (steps : List (Except QErr Row)) (checks rc : Nat)
      (chunk : List (List Int)),
      okRowSteps offs steps → checks ≤ N → N < checks + steps.length →
      rc + (N - checks) < limit →
      handleStreamingGo (some N) offs limit checks rc chunk steps =
        .error .deadlineExceeded := by
  intro steps
  induction steps with
  | nil =>
    intro checks rc chunk _ h1 h2 _
    simp at h2
    omega
  | cons step rest ih =>
    intro checks rc chunk hok h1 h2 h3
    have hstep := hok step (List.mem_cons_self _ _)
    have hrest : okRowSteps offs rest := fun s hs => hok s (List.mem_cons_of_mem _ hs)
    cases step with
    | error e => simp [stepOkFor] at hstep
    | ok row =>
      simp only [handleStreamingGo]
      rw [if_pos (by omega : rc < limit)]
      by_cases hN : checks < N
      · have hd : deadlineCheck (some N) checks = .ok () := by
          simp [deadlineCheck, hN]
        cases hg : getBinaryRow offs row with
        | error e => simp [stepOkFor, hg] at hstep
        | ok v =>
          simp only [hd, hg]
          exact ih (checks + 1) (rc + 1) (chunk ++ [v]) hrest (by omega)
            (by simp at h2 ⊢; omega) (by omega)
      · have hd : deadlineCheck (some N) checks = .error .deadlineExceeded := by
          simp [deadlineCheck]
          omega
        simp only [hd]

end Tikv

namespace Tikv

/- ----------------------------------------------------------------------
   C2: chunk bounds of the non-streaming response
   ---------------------------------------------------------------------- -/

/-- C2 (amended).  When `batch_row_limit` is at least one, every chunk of a
successful non-streaming response holds at most `batch_row_limit` rows, and
every chunk but the last holds exactly `batch_row_limit` rows. -/
theorem handle_request_chunk_bounds :
    ∀ (r : ExecutorsRunner) (resp : SelectResponse) (r2 : ExecutorsRunner),
      1 ≤ r.batchRowLimit →
      ExecutorsRunner.handle_request r = .ok (resp, r2) →
      (∀ c ∈ resp.chunks, c.length ≤ r.batchRowLimit) ∧
      (∀ c ∈ resp.chunks.dropLast, c.length = r.batchRowLimit) := by
  intro r resp r2 hlim h
  rw [ExecutorsRunner.handle_request] at h
  cases hg : handleRequestGo r.deadline r.outputOffsets r.batchRowLimit
      r.checksDone [] 0 r.executor.steps with
  | error e => rw [hg] at h; simp at h
  | ok out =>
    obtain ⟨chunks, checks⟩ := out
    rw [hg] at h
    simp only [Except.ok.injEq, Prod.mk.injEq] at h
    obtain ⟨hresp, -⟩ := h
    have hch : resp.chunks = chunks := by rw [← hresp]
    obtain ⟨rc2, hinv⟩ := hgo_inv r.deadline r.outputOffsets r.batchRowLimit hlim
      r.executor.steps r.checksDone [] 0 (chunks, checks) hg (Or.inl ⟨rfl, rfl⟩)
    rw [hch]
    rcases hinv with ⟨hnil, -⟩ | ⟨cs, c, heq, hrc, hle, hall⟩
    · simp only at hnil
      subst hnil
      exact ⟨by simp, by simp⟩
    · simp only at heq
      subst heq
      constructor
      · intro x hx
        rcases List.mem_append.1 hx with hx | hx
        · exact Nat.le_of_eq (hall x hx)
        · simp at hx; subst hx; exact hle
      · intro x hx
        rw [List.dropLast_concat] at hx
        exact hall x hx

def c2run : ExecutorsRunner :=
  { deadline := none, checksDone := 0,
    executor := ⟨[.ok [5], .ok [6], .ok [7]], [3], [], ⟨[1], [9]⟩⟩,
    outputOffsets := [0], batchRowLimit := 2, collectExecSummary := false,
    execStats := ⟨[], []⟩ }

def c2resp : SelectResponse := ⟨[[[5], [6]], [[7]]], [3], none, none⟩

def c2post : ExecutorsRunner :=
  { deadline := none, checksDone := 3, executor := ⟨[], [], [], ⟨[1], [9]⟩⟩,
    outputOffsets := [0], batchRowLimit := 2, collectExecSummary := false,
    execStats := ⟨[], []⟩ }

/-- Witness for C2: a three-row request with limit two yields chunks of two
and one rows. -/
theorem handle_request_chunk_bounds_wit :
    1 ≤ c2run.batchRowLimit ∧
    ExecutorsRunner.handle_request c2run = .ok (c2resp, c2post) ∧
    (∀ c ∈ c2resp.chunks, c.length ≤ c2run.batchRowLimit) :=
  ⟨by decide, rfl,
   (handle_request_chunk_bounds c2run c2resp c2post (by decide) rfl).1⟩

def c2zrun : ExecutorsRunner :=
  { deadline := none, checksDone := 0,
    executor := ⟨[.ok [1], .ok [2]], [], [], ⟨[], []⟩⟩,
    outputOffsets := [0], batchRowLimit := 0, collectExecSummary := false,
    execStats := ⟨[], []⟩ }

def c2zresp : SelectResponse := ⟨[[[1]], [[2]]], [], none, none⟩

def c2zpost : ExecutorsRunner :=
  { deadline := none, checksDone := 2, executor := ⟨[], [], [], ⟨[], []⟩⟩,
    outputOffsets := [0], batchRowLimit := 0, collectExecSummary := false,
    execStats := ⟨[], []⟩ }

/-- Counterexample to C2 as stated: with `batch_row_limit = 0` the code
still puts one row into every chunk, exceeding the limit. -/
theorem handle_request_zero_limit_cex :
    ExecutorsRunner.handle_request c2zrun = .ok (c2zresp, c2zpost) ∧
    ∃ c ∈ c2zresp.chunks, c2zrun.batchRowLimit < c.length :=
  ⟨rfl, by decide⟩

/- ----------------------------------------------------------------------
   C3: the streaming contract
   ---------------------------------------------------------------------- -/

/-- A streaming loop that starts with rows available and a positive limit
produces at least one record, so a zero record count forces an empty source. -/
lemma sgo_zero_rc (dl : Option Nat) (offs : List Nat) (limit : Nat)
    (hlim : 0 < limit) (steps : List (Except QErr Row)) (checks : Nat)
    (c2 : List (List Int)) (ch2 : Nat) (fin : Bool)
    (rest : List (Except QErr Row))
    (hg : handleStreamingGo dl offs limit checks 0 [] steps =
      .ok (c2, 0, ch2, fin, rest)) :
    steps = [] := by
  cases steps with
  | nil => rfl
  | cons step rest0 =>
    exfalso
    cases step with
    | error e => simp [handleStreamingGo, if_pos hlim] at hg
    | ok row =>
      simp only [handleStreamingGo, if_pos hlim] at hg
      cases hd : deadlineCheck dl checks with
      | error e => rw [hd] at hg; simp at hg
      | ok u =>
        rw [hd] at hg
        cases hgb : getBinaryRow offs row with
        | error e => rw [hgb] at hg; simp at hg
        | ok v =>
          rw [hgb] at hg
          have h1 := (sgo_spec dl offs limit rest0 (checks + 1) (0 + 1)
            ([] ++ [v]) c2 0 ch2 fin rest hg).1
          omega

/-- Evaluation of the streaming wrapper once the loop's outcome is known. -/
lemma handle_streaming_request_eq (r : ExecutorsRunner)
    (chunk : List (List Int)) (rc checks : Nat) (finished : Bool)
    (rest : List (Except QErr Row))
    (hg : handleStreamingGo r.deadline r.outputOffsets r.batchRowLimit
      r.checksDone 0 [] r.executor.steps =
        .ok (chunk, rc, checks, finished, rest)) :
    ExecutorsRunner.handle_streaming_request r =
      if 0 < rc then
        .ok (some
          (⟨chunk, addCounts r.execStats.scannedRowsPerRange r.executor.scanned,
            none⟩, r.executor.scannedRange), finished,
          ⟨r.deadline, checks, ⟨rest, [], [], IntervalRange.empty⟩,
            r.outputOffsets, r.batchRowLimit, r.collectExecSummary,
            ExecuteStats.empty⟩)
      else
        .ok (none, true,
          { r with executor := { r.executor with steps := rest },
                   checksDone := checks }) := by
  rw [ExecutorsRunner.handle_streaming_request, hg]
  rfl

/-- C3 (amended).  For a successful streaming call with `batch_row_limit` at
least one: an immediately exhausted source yields `(none, true)`; `none` only
comes with a true finished flag; a produced chunk holds at most
`batch_row_limit` rows, carries the executor's current scanned range, and has
a false finished flag exactly when the row limit was reached before the
source reported exhaustion; and, conversely, a source that is not exhausted
does return some chunk. -/
theorem handle_streaming_request_spec :
    ∀ (r : ExecutorsRunner) (out : Option (StreamResponse × IntervalRange))
      (fin : Bool) (r2 : ExecutorsRunner),
      1 ≤ r.batchRowLimit →
      ExecutorsRunner.handle_streaming_request r = .ok (out, fin, r2) →
      (r.executor.steps = [] → out = none ∧ fin = true) ∧
      (out = none → fin = true) ∧
      (∀ (sr : StreamResponse) (rg : IntervalRange), out = some (sr, rg) →
        sr.data.length ≤ r.batchRowLimit ∧
        rg = r.executor.scannedRange ∧
        (fin = false ↔ sr.data.length = r.batchRowLimit) ∧
        r.executor.steps ≠ []) ∧
      (r.executor.steps ≠ [] →
        ∃ (sr : StreamResponse) (rg : IntervalRange), out = some (sr, rg)) := by
  intro r out fin r2 hlim h
  cases hg : handleStreamingGo r.deadline r.outputOffsets r.batchRowLimit
      r.checksDone 0 [] r.executor.steps with
  | error e => rw [ExecutorsRunner.handle_streaming_request, hg] at h; simp at h
  | ok q =>
    obtain ⟨chunk, rc, checks, finished, rest⟩ := q
    rw [handle_streaming_request_eq r chunk rc checks finished rest hg] at h
    obtain ⟨i1, i2, i3, i4, i5, i6⟩ := sgo_spec r.deadline r.outputOffsets
      r.batchRowLimit r.executor.steps r.checksDone 0 [] chunk rc checks
      finished rest hg
    simp only [List.length_nil, Nat.add_zero, Nat.zero_add] at i2 i3
    have hempty : r.executor.steps = [] → rc = 0 := by
      intro hsteps
      rw [hsteps, handleStreamingGo,
        if_pos (by omega : (0 : Nat) < r.batchRowLimit)] at hg
      simp only [Except.ok.injEq, Prod.mk.injEq] at hg
      omega
    by_cases hrc : 0 < rc
    · rw [if_pos hrc] at h
      simp only [Except.ok.injEq, Prod.mk.injEq] at h
      obtain ⟨h1, h2, h3⟩ := h
      refine ⟨?_, ?_, ?_, fun _ => ⟨_, _, h1.symm⟩⟩
      · intro hsteps
        exact absurd (hempty hsteps) (by omega)
      · intro hnone
        rw [← h1] at hnone
        simp at hnone
      · intro sr rg hsr
        rw [← h1] at hsr
        simp only [Option.some.injEq, Prod.mk.injEq] at hsr
        obtain ⟨hsr1, hsr2⟩ := hsr
        have hdata : sr.data = chunk := by rw [← hsr1]
        have hrg : rg = r.executor.scannedRange := hsr2.symm
        have hlen : sr.data.length = rc := by
          rw [hdata]; omega
        have hrcle : rc ≤ r.batchRowLimit := i4 (Nat.zero_le _)
        refine ⟨by omega, hrg, ?_, ?_⟩
        · subst h2
          constructor
          · intro hf
            have := i5 hf
            have := i4 (by omega)
            omega
          · intro hl
            cases hfin : finished with
            | false => rfl
            | true =>
              obtain ⟨hlt, -⟩ := i6 hfin
              omega
        · intro hsteps
          exact absurd (hempty hsteps) (by omega)
    · rw [if_neg hrc] at h
      simp only [Except.ok.injEq, Prod.mk.injEq] at h
      obtain ⟨h1, h2, h3⟩ := h
      refine ⟨fun _ => ⟨h1.symm, h2.symm⟩, fun _ => h2.symm, ?_, ?_⟩
      · intro sr rg hsr
        rw [← h1] at hsr
        simp at hsr
      · intro hne
        have hrc0 : rc = 0 := by omega
        subst hrc0
        exact absurd (sgo_zero_rc r.deadline r.outputOffsets r.batchRowLimit
          (by omega) r.executor.steps r.checksDone chunk checks finished rest hg) hne

def c3run : ExecutorsRunner :=
  { deadline := none, checksDone := 0,
    executor := ⟨[.ok [5], .ok [6], .ok [7]], [4], [], ⟨[1], [9]⟩⟩,
    outputOffsets := [0], batchRowLimit := 2, collectExecSummary := false,
    execStats := ⟨[], []⟩ }

def c3sr : StreamResponse := ⟨[[5], [6]], [4], none⟩

def c3rg : IntervalRange := ⟨[1], [9]⟩

def c3post : ExecutorsRunner :=
  { deadline := none, checksDone := 2, executor := ⟨[.ok [7]], [], [], ⟨[], []⟩⟩,
    outputOffsets := [0], batchRowLimit := 2, collectExecSummary := false,
    execStats := ⟨[], []⟩ }

/-- Witness for C3: a streaming call that hits the row limit returns the
bounded chunk, the scanned range, and a false finished flag. -/
theorem handle_streaming_request_spec_wit :
    1 ≤ c3run.batchRowLimit ∧
    ExecutorsRunner.handle_streaming_request c3run =
      .ok (some (c3sr, c3rg), false, c3post) ∧
    c3sr.data.length ≤ c3run.batchRowLimit ∧
    c3rg = c3run.executor.scannedRange :=
  ⟨by decide, rfl,
   ((handle_streaming_request_spec c3run (some (c3sr, c3rg)) false c3post
      (by decide) rfl).2.2.1 c3sr c3rg rfl).1,
   ((handle_streaming_request_spec c3run (some (c3sr, c3rg)) false c3post
      (by decide) rfl).2.2.1 c3sr c3rg rfl).2.1⟩

def c3zrun : ExecutorsRunner :=
  { deadline := none, checksDone := 0,
    executor := ⟨[.ok [7]], [], [], ⟨[], []⟩⟩,
    outputOffsets := [0], batchRowLimit := 0, collectExecSummary := false,
    execStats := ⟨[], []⟩ }

/-- Counterexample to C3 as stated: with `batch_row_limit = 0` the call
returns `(none, true)` although the source still holds a row. -/
theorem handle_streaming_zero_limit_cex :
    c3zrun.executor.steps ≠ [] ∧
    ExecutorsRunner.handle_streaming_request c3zrun = .ok (none, true, c3zrun) :=
  ⟨by decide, rfl⟩

end Tikv

namespace Tikv

/-- Evaluation of the non-streaming wrapper once the loop's outcome is
known. -/
lemma handle_request_eq (r : ExecutorsRunner) (chunks : List Chunk)
    (checks : Nat)
    (hg : handleRequestGo r.deadline r.outputOffsets r.batchRowLimit
      r.checksDone [] 0 r.executor.steps = .ok (chunks, checks)) :
    ExecutorsRunner.handle_request r =
      .ok (⟨chunks, addCounts r.execStats.scannedRowsPerRange r.executor.scanned,
          if r.collectExecSummary then
            some (addSummaries r.execStats.summaryPerExecutor r.executor.summaries)
          else none,
          none⟩,
        ⟨r.deadline, checks, ⟨[], [], [], r.executor.scannedRange⟩,
          r.outputOffsets, r.batchRowLimit, r.collectExecSummary,
          ExecuteStats.empty⟩) := by
  rw [ExecutorsRunner.handle_request, hg]
  rfl

/- ----------------------------------------------------------------------
   C4: deadline enforcement
   ---------------------------------------------------------------------- -/

/-- C4.  When the deadline (a bound on the number of per-row checks) expires
while the source still yields rows, both entry points fail with the
deadline-exceeded error - distinct from storage and evaluation errors - and
return no response or chunk at all; moreover, on every successful run of
either entry point, the number of performed deadline checks equals the
number of produced rows. -/
theorem deadline_enforcement :
    ∀ (r : ExecutorsRunner) (N : Nat),
      r.deadline = some N →
      r.checksDone ≤ N →
      okRowSteps r.outputOffsets r.executor.steps →
      N < r.checksDone + r.executor.steps.length →
      N - r.checksDone < r.batchRowLimit →
      (ExecutorsRunner.handle_request r = .error .deadlineExceeded ∧
       ExecutorsRunner.handle_streaming_request r = .error .deadlineExceeded) ∧
      (∀ code msg, QErr.deadlineExceeded ≠ QErr.storage code ∧
        QErr.deadlineExceeded ≠ QErr.evaluate code msg) ∧
      (∀ (r2 : ExecutorsRunner) (resp : SelectResponse) (r3 : ExecutorsRunner),
        ExecutorsRunner.handle_request r2 = .ok (resp, r3) →
        r3.checksDone = r2.checksDone + chunksRowCount resp.chunks) ∧
      (∀ (r2 : ExecutorsRunner) (out : Option (StreamResponse × IntervalRange))
        (fin : Bool) (r3 : ExecutorsRunner),
        ExecutorsRunner.handle_streaming_request r2 = .ok (out, fin, r3) →
        r3.checksDone = r2.checksDone + streamRowCount out) := by
  intro r N hdl hle hok hlen hlim
  refine ⟨⟨?_, ?_⟩, ?_, ?_, ?_⟩
  · simp only [ExecutorsRunner.handle_request, hdl]
    rw [hgo_deadline r.outputOffsets r.batchRowLimit N r.executor.steps
      r.checksDone [] 0 hok hle hlen]
  · simp only [ExecutorsRunner.handle_streaming_request, hdl]
    rw [sgo_deadline r.outputOffsets r.batchRowLimit N r.executor.steps
      r.checksDone 0 [] hok hle hlen (by omega)]
  · intro code msg
    exact ⟨fun h => QErr.noConfusion h, fun h => QErr.noConfusion h⟩
  · intro r2 resp r3 h
    cases hg : handleRequestGo r2.deadline r2.outputOffsets r2.batchRowLimit
        r2.checksDone [] 0 r2.executor.steps with
    | error e => rw [ExecutorsRunner.handle_request, hg] at h; simp at h
    | ok out =>
      obtain ⟨chunks, checks⟩ := out
      rw [handle_request_eq r2 chunks checks hg] at h
      simp only [Except.ok.injEq, Prod.mk.injEq] at h
      obtain ⟨hresp, hr3⟩ := h
      obtain ⟨c1, c2⟩ := hgo_counts r2.deadline r2.outputOffsets r2.batchRowLimit
        r2.executor.steps r2.checksDone [] 0 (chunks, checks) hg
      simp only [chunksRowCount, List.map_nil, List.sum_nil, Nat.add_zero] at c1
      rw [← hr3, ← hresp]
      show checks = r2.checksDone + chunksRowCount chunks
      simp only [chunksRowCount] at c1 ⊢
      omega
  · intro r2 out fin r3 h
    cases hg : handleStreamingGo r2.deadline r2.outputOffsets r2.batchRowLimit
        r2.checksDone 0 [] r2.executor.steps with
    | error e => rw [ExecutorsRunner.handle_streaming_request, hg] at h; simp at h
    | ok q =>
      obtain ⟨chunk, rc, checks, finished, rest⟩ := q
      obtain ⟨i1, i2, i3, i4, i5, i6⟩ := sgo_spec r2.deadline r2.outputOffsets
        r2.batchRowLimit r2.executor.steps r2.checksDone 0 [] chunk rc checks
        finished rest hg
      simp only [List.length_nil, Nat.add_zero, Nat.zero_add] at i2 i3
      rw [handle_streaming_request_eq r2 chunk rc checks finished rest hg] at h
      by_cases hrc : 0 < rc
      · rw [if_pos hrc] at h
        simp only [Except.ok.injEq, Prod.mk.injEq] at h
        obtain ⟨h1, h2, h3⟩ := h
        rw [← h3, ← h1]
        show checks = r2.checksDone + streamRowCount (some _)
        simp only [streamRowCount]
        omega
      · rw [if_neg hrc] at h
        simp only [Except.ok.injEq, Prod.mk.injEq] at h
        obtain ⟨h1, h2, h3⟩ := h
        rw [← h3, ← h1]
        show checks = r2.checksDone + streamRowCount none
        simp only [streamRowCount]
        omega

def c4run : ExecutorsRunner :=
  { deadline := some 1, checksDone := 0,
    executor := ⟨[.ok [5], .ok [6], .ok [7]], [], [], ⟨[], []⟩⟩,
    outputOffsets := [0], batchRowLimit := 10, collectExecSummary := false,
    execStats := ⟨[], []⟩ }

/-- Witness for C4: a deadline expiring after the first produced row makes
the request fail with the deadline error. -/
theorem deadline_enforcement_wit :
    c4run.deadline = some 1 ∧ c4run.checksDone ≤ 1 ∧
    okRowSteps c4run.outputOffsets c4run.executor.steps ∧
    1 < c4run.checksDone + c4run.executor.steps.length ∧
    1 - c4run.checksDone < c4run.batchRowLimit ∧
    ExecutorsRunner.handle_request c4run = .error .deadlineExceeded :=
  ⟨rfl, by decide, by decide, by decide, by decide,
   (deadline_enforcement c4run 1 rfl (by decide) (by decide) (by decide)
      (by decide)).1.1⟩

/- ----------------------------------------------------------------------
   C8: statistics are drained and cleared
   ---------------------------------------------------------------------- -/

/-- C8.  After any successful call that drains statistics into a response
(non-streaming, or streaming with a produced chunk), the runner's
accumulated statistics are empty; consequently two runners differing only in
their accumulated statistics end a successful call in identical states, so a
second call is independent of the first call's statistics. -/
theorem exec_stats_drained_and_cleared :
    ∀ (r : ExecutorsRunner),
      (∀ (resp : SelectResponse) (r2 : ExecutorsRunner),
        ExecutorsRunner.handle_request r = .ok (resp, r2) →
        r2.execStats = ExecuteStats.empty) ∧
      (∀ (sr : StreamResponse) (rg : IntervalRange) (fin : Bool)
        (r2 : ExecutorsRunner),
        ExecutorsRunner.handle_streaming_request r = .ok (some (sr, rg), fin, r2) →
        r2.execStats = ExecuteStats.empty) ∧
      (∀ (rb : ExecutorsRunner) (respa : SelectResponse) (ra2 : ExecutorsRunner)
        (respb : SelectResponse) (rb2 : ExecutorsRunner),
        rb.deadline = r.deadline → rb.checksDone = r.checksDone →
        rb.executor = r.executor → rb.outputOffsets = r.outputOffsets →
        rb.batchRowLimit = r.batchRowLimit →
        rb.collectExecSummary = r.collectExecSummary →
        ExecutorsRunner.handle_request r = .ok (respa, ra2) →
        ExecutorsRunner.handle_request rb = .ok (respb, rb2) →
        ra2 = rb2) := by
  intro r
  refine ⟨?_, ?_, ?_⟩
  · intro resp r2 h
    cases hg : handleRequestGo r.deadline r.outputOffsets r.batchRowLimit
        r.checksDone [] 0 r.executor.steps with
    | error e => rw [ExecutorsRunner.handle_request, hg] at h; simp at h
    | ok out =>
      obtain ⟨chunks, checks⟩ := out
      rw [handle_request_eq r chunks checks hg] at h
      simp only [Except.ok.injEq, Prod.mk.injEq] at h
      obtain ⟨-, hr2⟩ := h
      rw [← hr2]
  · intro sr rg fin r2 h
    cases hg : handleStreamingGo r.deadline r.outputOffsets r.batchRowLimit
        r.checksDone 0 [] r.executor.steps with
    | error e => rw [ExecutorsRunner.handle_streaming_request, hg] at h; simp at h
    | ok q =>
      obtain ⟨chunk, rc, checks, finished, rest⟩ := q
      rw [handle_streaming_request_eq r chunk rc checks finished rest hg] at h
      by_cases hrc : 0 < rc
      · rw [if_pos hrc] at h
        simp only [Except.ok.injEq, Prod.mk.injEq] at h
        obtain ⟨-, -, hr2⟩ := h
        rw [← hr2]
      · rw [if_neg hrc] at h
        simp at h
  · obtain ⟨dl, cd, ex, oo, lim, csm, st⟩ := r
    intro rb respa ra2 respb rb2 h1 h2 h3 h4 h5 h6 ha hb
    obtain ⟨dlb, cdb, exb, oob, limb, csmb, stb⟩ := rb
    dsimp only at h1 h2 h3 h4 h5 h6
    subst h1; subst h2; subst h3; subst h4; subst h5; subst h6
    cases hg : handleRequestGo dlb oob limb cdb [] 0 exb.steps with
    | error e => rw [ExecutorsRunner.handle_request, hg] at ha; simp at ha
    | ok out =>
      obtain ⟨chunks, checks⟩ := out
      rw [handle_request_eq ⟨dlb, cdb, exb, oob, limb, csmb, st⟩ chunks checks hg] at ha
      rw [handle_request_eq ⟨dlb, cdb, exb, oob, limb, csmb, stb⟩ chunks checks hg] at hb
      simp only [Except.ok.injEq, Prod.mk.injEq] at ha hb
      obtain ⟨-, hra⟩ := ha
      obtain ⟨-, hrb⟩ := hb
      rw [← hra, ← hrb]

def c8run : ExecutorsRunner :=
  { deadline := none, checksDone := 0,
    executor := ⟨[.ok [8]], [6], [], ⟨[2], [7]⟩⟩,
    outputOffsets := [0], batchRowLimit := 4, collectExecSummary := false,
    execStats := ⟨[1], []⟩ }

def c8resp : SelectResponse := ⟨[[[8]]], [7], none, none⟩

def c8post : ExecutorsRunner :=
  { deadline := none, checksDone := 1, executor := ⟨[], [], [], ⟨[2], [7]⟩⟩,
    outputOffsets := [0], batchRowLimit := 4, collectExecSummary := false,
    execStats := ⟨[], []⟩ }

/-- Witness for C8: a runner with pending statistics ends a successful call
with empty statistics. -/
theorem exec_stats_drained_and_cleared_wit :
    ExecutorsRunner.handle_request c8run = .ok (c8resp, c8post) ∧
    c8post.execStats = ExecuteStats.empty :=
  ⟨rfl, (exec_stats_drained_and_cleared c8run).1 c8resp c8post rfl⟩

end Tikv

namespace Tikv

/- ----------------------------------------------------------------------
   C5: signedness dispatch of integer-family signatures
   ---------------------------------------------------------------------- -/

/-- Wrong arity makes the signedness dispatch fail. -/
lemma map_int_sig_arity (value : ScalarFuncSig) (mapper : Bool → Bool → RpnFnMeta) :
    ∀ (children : List Expr), children.length ≠ 2 →
      map_int_sig value children mapper =
        .error (.scalarFunctionNotSupported value children.length)
  | [], _ => rfl
  | [_], _ => rfl
  | [_, _], h => absurd rfl h
  | _ :: _ :: _ :: _, _ => rfl

lemma compare_mapper_inj (op : CmpOp) (u1 u2 v1 v2 : Bool) :
    compare_mapper op u1 u2 = compare_mapper op v1 v2 → u1 = v1 ∧ u2 = v2 := by
  cases u1 <;> cases u2 <;> cases v1 <;> cases v2 <;> simp [compare_mapper]

lemma plus_mapper_inj (u1 u2 v1 v2 : Bool) :
    plus_mapper u1 u2 = plus_mapper v1 v2 → u1 = v1 ∧ u2 = v2 := by
  cases u1 <;> cases u2 <;> cases v1 <;> cases v2 <;> simp [plus_mapper]

lemma minus_mapper_inj (u1 u2 v1 v2 : Bool) :
    minus_mapper u1 u2 = minus_mapper v1 v2 → u1 = v1 ∧ u2 = v2 := by
  cases u1 <;> cases u2 <;> cases v1 <;> cases v2 <;> simp [minus_mapper]

lemma multiply_mapper_inj (u1 u2 v1 v2 : Bool) :
    multiply_mapper u1 u2 = multiply_mapper v1 v2 → u1 = v1 ∧ u2 = v2 := by
  cases u1 <;> cases u2 <;> cases v1 <;> cases v2 <;> simp [multiply_mapper]

lemma mod_mapper_inj (u1 u2 v1 v2 : Bool) :
    mod_mapper u1 u2 = mod_mapper v1 v2 → u1 = v1 ∧ u2 = v2 := by
  cases u1 <;> cases u2 <;> cases v1 <;> cases v2 <;> simp [mod_mapper]

lemma divide_mapper_inj (u1 u2 v1 v2 : Bool) :
    divide_mapper u1 u2 = divide_mapper v1 v2 → u1 = v1 ∧ u2 = v2 := by
  cases u1 <;> cases u2 <;> cases v1 <;> cases v2 <;> simp [divide_mapper]

/-- C5.  Every integer-family comparison or arithmetic signature dispatches
over the two children's unsigned flags: each of the four flag combinations
resolves to a routine, distinct combinations resolve to distinct routines,
and any child list whose length is not two is rejected with an error. -/
theorem int_sig_dispatch :
    ∀ sig ∈ intFamilySigs,
      (∀ u1 u2 : Bool, ∃ m,
        map_pb_sig_to_rpn_func sig [⟨u1⟩, ⟨u2⟩] = .ok m) ∧
      (∀ u1 u2 v1 v2 : Bool,
        map_pb_sig_to_rpn_func sig [⟨u1⟩, ⟨u2⟩] =
          map_pb_sig_to_rpn_func sig [⟨v1⟩, ⟨v2⟩] → u1 = v1 ∧ u2 = v2) ∧
      (∀ children : List Expr, children.length ≠ 2 →
        map_pb_sig_to_rpn_func sig children =
          .error (.scalarFunctionNotSupported sig children.length)) := by
  intro sig hmem
  simp only [intFamilySigs, List.mem_cons, List.not_mem_nil, or_false] at hmem
  rcases hmem with rfl | rfl | rfl | rfl | rfl | rfl | rfl | rfl | rfl | rfl | rfl | rfl
  · exact ⟨fun u1 u2 => ⟨_, rfl⟩,
      fun u1 u2 v1 v2 h => compare_mapper_inj .lt u1 u2 v1 v2 (Except.ok.inj h),
      fun children hlen => map_int_sig_arity _ _ children hlen⟩
  · exact ⟨fun u1 u2 => ⟨_, rfl⟩,
      fun u1 u2 v1 v2 h => compare_mapper_inj .le u1 u2 v1 v2 (Except.ok.inj h),
      fun children hlen => map_int_sig_arity _ _ children hlen⟩
  · exact ⟨fun u1 u2 => ⟨_, rfl⟩,
      fun u1 u2 v1 v2 h => compare_mapper_inj .gt u1 u2 v1 v2 (Except.ok.inj h),
      fun children hlen => map_int_sig_arity _ _ children hlen⟩
  · exact ⟨fun u1 u2 => ⟨_, rfl⟩,
      fun u1 u2 v1 v2 h => compare_mapper_inj .ge u1 u2 v1 v2 (Except.ok.inj h),
      fun children hlen => map_int_sig_arity _ _ children hlen⟩
  · exact ⟨fun u1 u2 => ⟨_, rfl⟩,
      fun u1 u2 v1 v2 h => compare_mapper_inj .ne u1 u2 v1 v2 (Except.ok.inj h),
      fun children hlen => map_int_sig_arity _ _ children hlen⟩
  · exact ⟨fun u1 u2 => ⟨_, rfl⟩,
      fun u1 u2 v1 v2 h => compare_mapper_inj .eq u1 u2 v1 v2 (Except.ok.inj h),
      fun children hlen => map_int_sig_arity _ _ children hlen⟩
  · exact ⟨fun u1 u2 => ⟨_, rfl⟩,
      fun u1 u2 v1 v2 h => compare_mapper_inj .nullEq u1 u2 v1 v2 (Except.ok.inj h),
      fun children hlen => map_int_sig_arity _ _ children hlen⟩
  · exact ⟨fun u1 u2 => ⟨_, rfl⟩,
      fun u1 u2 v1 v2 h => plus_mapper_inj u1 u2 v1 v2 (Except.ok.inj h),
      fun children hlen => map_int_sig_arity _ _ children hlen⟩
  · exact ⟨fun u1 u2 => ⟨_, rfl⟩,
      fun u1 u2 v1 v2 h => minus_mapper_inj u1 u2 v1 v2 (Except.ok.inj h),
      fun children hlen => map_int_sig_arity _ _ children hlen⟩
  · exact ⟨fun u1 u2 => ⟨_, rfl⟩,
      fun u1 u2 v1 v2 h => multiply_mapper_inj u1 u2 v1 v2 (Except.ok.inj h),
      fun children hlen => map_int_sig_arity _ _ children hlen⟩
  · exact ⟨fun u1 u2 => ⟨_, rfl⟩,
      fun u1 u2 v1 v2 h => mod_mapper_inj u1 u2 v1 v2 (Except.ok.inj h),
      fun children hlen => map_int_sig_arity _ _ children hlen⟩
  · exact ⟨fun u1 u2 => ⟨_, rfl⟩,
      fun u1 u2 v1 v2 h => divide_mapper_inj u1 u2 v1 v2 (Except.ok.inj h),
      fun children hlen => map_int_sig_arity _ _ children hlen⟩

/-- Witness for C5 at the integer less-than signature with a signed left and
an unsigned right child. -/
theorem int_sig_dispatch_wit :
    ScalarFuncSig.LTInt ∈ intFamilySigs ∧
    ∃ m, map_pb_sig_to_rpn_func .LTInt [⟨false⟩, ⟨true⟩] = .ok m :=
  ⟨by simp [intFamilySigs],
   (int_sig_dispatch .LTInt (by simp [intFamilySigs])).1 false true⟩

end Tikv
